import Mathlib

/-!
# Verification of `src/blockheaderprocessor.cpp` (bitcoinxt header processor)

A shallow embedding of `DefaultHeaderProcessor`: header-batch acceptance
(`acceptHeaders`), the bounded missing-ancestor walk (`findMissingBlocks`),
the work-comparison gate (`hasEqualOrMoreWork`), the download suggestion loop
(`suggestDownload`), the orchestrating entry point (`operator()`, here
`processHeaders`), and the unconnecting-header handler
(`requestConnectHeaders`).

Block hashes are modelled as `Nat`.  External collaborators
(`AcceptBlockHeader`, the announcement admission policy `onBlockAnnounced`)
are parameters of the embedding: the functions under study are proved for
every behaviour of those collaborators.
-/

namespace HeaderProc

/-- Maximum number of unconnecting headers announcements before DoS score
    (`MAX_UNCONNECTING_HEADERS` in the source). -/
def MAX_UNCONNECTING_HEADERS : Nat := 10

/-- `WALK_LIMIT` in `findMissingBlocks`: "one day" of blocks. -/
def WALK_LIMIT : Nat := 144

/-- The fields of a `CBlockHeader` that this component reads:
    `hashPrevBlock` and the value of `GetHash()` (modelled as a stored
    field, since hashing itself is external). -/
structure CBlockHeader where
  hashPrevBlock : Nat
  hashVal : Nat
deriving DecidableEq

/-- `CBlockHeader::GetHash()`. -/
def CBlockHeader.GetHash (h : CBlockHeader) : Nat := h.hashVal

/-- The fields of a `CBlockIndex` node that this component reads. -/
structure BlockData where
  hashVal : Nat
  nHeight : Nat
  nChainWork : Nat
  hasData : Bool
  validTree : Bool
deriving DecidableEq

/-- A `CBlockIndex*`: a node of the header tree together with its `pprev`
    pointer chain.  `root` is a node whose `pprev` is null. -/
inductive CBlockIndex : Type where
  | root (data : BlockData)
  | link (data : BlockData) (pprev : CBlockIndex)
deriving DecidableEq

/-- The node's own record. -/
def CBlockIndex.data : CBlockIndex → BlockData
  | .root d => d
  | .link d _ => d

/-- `CBlockIndex::GetBlockHash()`. -/
def CBlockIndex.GetBlockHash (b : CBlockIndex) : Nat := b.data.hashVal

/-- `CBlockIndex::nHeight`. -/
def CBlockIndex.nHeight (b : CBlockIndex) : Nat := b.data.nHeight

/-- `CBlockIndex::nChainWork` (cumulative work, as a natural number). -/
def CBlockIndex.nChainWork (b : CBlockIndex) : Nat := b.data.nChainWork

/-- `walk->nStatus & BLOCK_HAVE_DATA`, as a flag. -/
def CBlockIndex.hasData (b : CBlockIndex) : Bool := b.data.hasData

/-- `IsValid(BLOCK_VALID_TREE)`, as a flag. -/
def CBlockIndex.validTree (b : CBlockIndex) : Bool := b.data.validTree

/-- The `pprev` pointer, null for a `root`. -/
def CBlockIndex.pprev : CBlockIndex → Option CBlockIndex
  | .root _ => none
  | .link _ p => some p

/-- The pointer chain `b, b->pprev, b->pprev->pprev, ...` as a list. -/
def CBlockIndex.chainList : CBlockIndex → List CBlockIndex
  | .root d => [.root d]
  | .link d p => .link d p :: p.chainList

/-- The shared chain state `findMissingBlocks` consults: `chainActive`
    membership (by hash), the `InFlightIndex`, and the active tip's
    `nChainWork` for the work gate. -/
structure ChainState where
  activeChain : List Nat
  inFlight : List Nat
  tipWork : Nat
deriving DecidableEq

/-- `chainActive.Contains(walk)`, by block hash. -/
def ChainState.activeContains (st : ChainState) (h : Nat) : Bool :=
  st.activeChain.contains h

/-- `blocksInFlight.isInFlight(hash)`. -/
def ChainState.isInFlight (st : ChainState) (h : Nat) : Bool :=
  st.inFlight.contains h

/-- A misbehavior report `Misbehaving(peerId, points, reason)`. -/
structure Misbehavior where
  peer : Nat
  points : Int
  reason : String
deriving DecidableEq

/-- The outcome of one call to the external `AcceptBlockHeader(header,
    state, &pindexLast)`: the returned `bool` (`ok`), the value written
    through `ppindex` (if any), and the validation state's
    `IsInvalid(nDoS)` answer with its penalty. -/
structure AcceptOutcome where
  ok : Bool
  pindexOut : Option CBlockIndex
  invalid : Bool
  nDoS : Int
deriving DecidableEq

/-- The errors thrown by `acceptHeaders` (both are `BlockHeaderError` in
    the source, distinguished by message: "non-continuous headers
    sequence" and "invalid header received"). -/
inductive HeaderError : Type where
  | nonContinuous
  | invalidHeader
deriving DecidableEq

/-- Outbound messages this component pushes.  A locator is summarised by
    the node the source builds it from (`chainActive.GetLocator(x)` is
    recorded as `getheaders (hash of x) stop`). -/
inductive Msg : Type where
  | getheaders (locatorBase : Option Nat) (hashStop : Nat)
  | getdata (inv : List Nat)
deriving DecidableEq

/-- The loop of `DefaultHeaderProcessor::acceptHeaders`, carrying the
    chain-index state `st` (abstract, threaded through the external
    `AcceptBlockHeader` oracle `f`), the misbehavior reports emitted so
    far, and `pindexLast`.  Returns the final chain-index state, the
    reports, `pindexLast`, and the thrown error if any. -/
def acceptHeadersGo {σ : Type} (f : σ → CBlockHeader → σ × AcceptOutcome) (peer : Nat) :
    σ → List Misbehavior → Option CBlockIndex → List CBlockHeader →
    σ × List Misbehavior × Option CBlockIndex × Option HeaderError
  | st, reports, pindexLast, [] => (st, reports, pindexLast, none)
  | st, reports, pindexLast, header :: rest =>
    if pindexLast.any fun l => header.hashPrevBlock != l.GetBlockHash then
      (st, reports ++ [⟨peer, 20, "non-continuous header sequence"⟩], pindexLast,
        some HeaderError.nonContinuous)
    else
      let r := f st header
      let pindexLast' := match r.2.pindexOut with
        | some p => some p
        | none => pindexLast
      if r.2.ok then
        acceptHeadersGo f peer r.1 reports pindexLast' rest
      else if r.2.invalid then
        if r.2.nDoS > 0 then
          (r.1, reports ++ [⟨peer, r.2.nDoS, "invalid header"⟩], pindexLast',
            some HeaderError.invalidHeader)
        else
          (r.1, reports, pindexLast', some HeaderError.invalidHeader)
      else
        acceptHeadersGo f peer r.1 reports pindexLast' rest

/-- `DefaultHeaderProcessor::acceptHeaders`. -/
def acceptHeaders {σ : Type} (f : σ → CBlockHeader → σ × AcceptOutcome) (peer : Nat)
    (st : σ) (headers : List CBlockHeader) :
    σ × List Misbehavior × Option CBlockIndex × Option HeaderError :=
  acceptHeadersGo f peer st [] none headers

/-- The do-while loop of `DefaultHeaderProcessor::findMissingBlocks`.
    `walked` is the step counter before the current iteration's
    `++walked`; `toFetch` is the deque (front = first pushed).  The
    per-peer transit cap `MAX_BLOCKS_IN_TRANSIT_PER_PEER` is the
    externally supplied constant `cap`. -/
def findMissingGo (st : ChainState) (cap : Nat) :
    CBlockIndex → Nat → List CBlockIndex → List CBlockIndex
  | walk, walked, toFetch =>
    if walked + 1 > WALK_LIMIT then
      []
    else if st.activeContains walk.GetBlockHash then
      toFetch
    else
      let toFetch' :=
        if walk.hasData then toFetch
        else if st.isInFlight walk.GetBlockHash then toFetch
        else
          let t := toFetch ++ [walk]
          if t.length > cap then t.tail else t
      match walk with
      | .root _ => toFetch'
      | .link _ p => findMissingGo st cap p (walked + 1) toFetch'

/-- `DefaultHeaderProcessor::findMissingBlocks`. -/
def findMissingBlocks (st : ChainState) (cap : Nat) (last : CBlockIndex) :
    List CBlockIndex :=
  findMissingGo st cap last 0 []

/-- The last `cap` elements of `l`, in order. -/
def lastWindow {γ : Type} (cap : Nat) (l : List γ) : List γ :=
  l.drop (l.length - cap)

/-- The walked nodes of `findMissingBlocks` strictly before the first one
    found on the active chain (in walk order: tip first). -/
def gapWalk (st : ChainState) (b : CBlockIndex) : List CBlockIndex :=
  b.chainList.takeWhile fun w => !(st.activeContains w.GetBlockHash)

/-- The locally absent, not-in-flight nodes among the walked gap
    (in walk order: tip first). -/
def missingGap (st : ChainState) (b : CBlockIndex) : List CBlockIndex :=
  (gapWalk st b).filter fun w => !w.hasData && !(st.isInFlight w.GetBlockHash)

/-- The backward pointer walk from `b` meets the active chain before
    running off the end (`pprev == nullptr`). -/
def reachesActive (st : ChainState) (b : CBlockIndex) : Prop :=
  (b.chainList.any fun w => st.activeContains w.GetBlockHash) = true

instance (st : ChainState) (b : CBlockIndex) : Decidable (reachesActive st b) := by
  unfold reachesActive
  infer_instance

/-- `DefaultHeaderProcessor::hasEqualOrMoreWork`. -/
def hasEqualOrMoreWork (st : ChainState) (last : CBlockIndex) : Bool :=
  last.validTree && decide (st.tipWork ≤ last.nChainWork)

/-- The loop of `DefaultHeaderProcessor::suggestDownload`, iterating the
    already-reversed window.  `ann` is the external admission policy
    (`BlockAnnounceReceiver::onBlockAnnounced`) threaded through its own
    state `a`; per the collaborator contract, an admitted hash is appended
    to `toGet` and then marked in-flight (`marked`).  `evals` counts the
    calls made to the admission policy. -/
def suggestDownloadGo {α : Type} (ann : α → Nat → Bool × α) :
    List CBlockIndex → α → List Nat → List Nat → Nat →
    List Nat × List Nat × Nat × α
  | [], a, toGet, marked, evals => (toGet, marked, evals, a)
  | b :: rest, a, toGet, marked, evals =>
    let r := ann a b.GetBlockHash
    if r.1 then
      suggestDownloadGo ann rest r.2 (toGet ++ [b.GetBlockHash])
        (marked ++ [b.GetBlockHash]) (evals + 1)
    else
      (toGet, marked, evals + 1, a)

/-- `DefaultHeaderProcessor::suggestDownload`: iterates
    `boost::adaptors::reverse(toFetch)`, stops at the first declined
    hash, and sends one `getdata` when the batch is non-empty.  Returns
    (requested hashes, hashes marked in-flight, admission-policy calls,
    messages sent, final policy state). -/
def suggestDownload {α : Type} (ann : α → Nat → Bool × α) (a : α)
    (toFetch : List CBlockIndex) :
    List Nat × List Nat × Nat × List Msg × α :=
  let r := suggestDownloadGo ann toFetch.reverse a [] [] 0
  let msgs : List Msg := if r.1 = [] then [] else [Msg.getdata r.1]
  (r.1, r.2.1, r.2.2.1, msgs, r.2.2.2)

/-- The observable outcome of one call to
    `DefaultHeaderProcessor::operator()`. -/
structure ProcResult (σ : Type) where
  chainIdx : σ
  reports : List Misbehavior
  unconnectingReset : Bool
  availUpdated : List Nat
  msgs : List Msg
  ranFindMissing : Bool
  ranSuggest : Bool
  markedInFlight : List Nat
  checkedBlockIndex : Bool
  ret : Option CBlockIndex
  error : Option HeaderError

/-- `DefaultHeaderProcessor::operator()(headers, peerSentMax,
    maybeAnnouncement)`.  A thrown `BlockHeaderError` propagates out of
    the call, skipping every later statement (including the final
    `checkBlockIndex()`). -/
def processHeaders {σ α : Type} (f : σ → CBlockHeader → σ × AcceptOutcome)
    (ann : α → Nat → Bool × α) (peer : Nat) (g : ChainState) (cap : Nat)
    (st : σ) (a : α) (headers : List CBlockHeader)
    (peerSentMax maybeAnnouncement : Bool) : ProcResult σ :=
  let acc := acceptHeaders f peer st headers
  match acc.2.2.2 with
  | some e =>
    { chainIdx := acc.1, reports := acc.2.1, unconnectingReset := false,
      availUpdated := [], msgs := [], ranFindMissing := false,
      ranSuggest := false, markedInFlight := [], checkedBlockIndex := false,
      ret := none, error := some e }
  | none =>
    let pindexLast := acc.2.2.1
    let avail := match pindexLast with
      | some l => [l.GetBlockHash]
      | none => []
    let contMsgs := match pindexLast with
      | some l =>
        if peerSentMax then [Msg.getheaders (some l.GetBlockHash) 0] else []
      | none => []
    match pindexLast with
    | some l =>
      if maybeAnnouncement && hasEqualOrMoreWork g l then
        let toFetch := findMissingBlocks g cap l
        let sug := suggestDownload ann a toFetch
        { chainIdx := acc.1, reports := acc.2.1, unconnectingReset := true,
          availUpdated := avail, msgs := contMsgs ++ sug.2.2.2.1,
          ranFindMissing := true, ranSuggest := true,
          markedInFlight := sug.2.1, checkedBlockIndex := true,
          ret := pindexLast, error := none }
      else
        { chainIdx := acc.1, reports := acc.2.1, unconnectingReset := true,
          availUpdated := avail, msgs := contMsgs, ranFindMissing := false,
          ranSuggest := false, markedInFlight := [],
          checkedBlockIndex := true, ret := pindexLast, error := none }
    | none =>
      { chainIdx := acc.1, reports := acc.2.1, unconnectingReset := true,
        availUpdated := avail, msgs := contMsgs, ranFindMissing := false,
        ranSuggest := false, markedInFlight := [], checkedBlockIndex := true,
        ret := pindexLast, error := none }

/-- The global and per-peer state read and written by
    `requestConnectHeaders`: the header tree's key set (`mapBlockIndex`),
    the peer's best-known-header pointer, the node's global
    `pindexBestHeader`, and the peer's `unconnectingHeaders` counter. -/
structure PeerEnv where
  mapBlockIndex : List Nat
  bestKnownHeader : Option Nat
  pindexBestHeader : Option Nat
  unconnectingHeaders : Nat
deriving DecidableEq

/-- `headerConnects(h)`: `mapBlockIndex.find(h.hashPrevBlock) !=
    mapBlockIndex.end()`. -/
def headerConnects (env : PeerEnv) (h : CBlockHeader) : Bool :=
  env.mapBlockIndex.contains h.hashPrevBlock

/-- Modelled from the spec: `updateBlockAvailability(peerId, hash)`
    updates the peer's known-block pointer to the given hash (the
    implementation lives in `main.cpp`, which is not among the sources). -/
def updateBlockAvailability (env : PeerEnv) (h : Nat) : PeerEnv :=
  { env with bestKnownHeader := some h }

/-- `DefaultHeaderProcessor::requestConnectHeaders(h, connman, from,
    bumpUnconnecting)`.  Returns the updated state, the misbehavior
    reports, the messages pushed, and the `bool` return value. -/
def requestConnectHeaders (peer : Nat) (env : PeerEnv) (h : CBlockHeader)
    (bumpUnconnecting : Bool) :
    PeerEnv × List Misbehavior × List Msg × Bool :=
  if headerConnects env h then
    (env, [], [], false)
  else
    let env1 := updateBlockAvailability env h.GetHash
    let msgs := [Msg.getheaders env.pindexBestHeader 0]
    if !bumpUnconnecting then
      (env1, [], msgs, true)
    else
      let unconnecting := env1.unconnectingHeaders + 1
      let env2 := { env1 with unconnectingHeaders := unconnecting }
      if unconnecting % MAX_UNCONNECTING_HEADERS = 0 then
        (env2, [⟨peer, 20, "unconnecting-headers"⟩], msgs, true)
      else
        (env2, [], msgs, true)

/-- Repeated invocations of `requestConnectHeaders` with
    `bumpUnconnecting = true` for a stream of headers from one peer,
    accumulating the misbehavior reports. -/
def requestConnectHeadersRun (peer : Nat) :
    PeerEnv → List CBlockHeader → PeerEnv × List Misbehavior
  | env, [] => (env, [])
  | env, h :: rest =>
    let r := requestConnectHeaders peer env h true
    let r' := requestConnectHeadersRun peer r.1 rest
    (r'.1, r.2.1 ++ r'.2)


/-! ## Concrete instances

A small block tree used by the concrete theorems below: active chain tip
`A` (hash 1, height 100, work 50), side extension `B1 <- B2 <- B3`
(hashes 2, 3, 4; none with data; none in flight). -/

/-- Node `A`, on the active chain. -/
def nodeA : CBlockIndex := .root ⟨1, 100, 50, true, true⟩

/-- Node `B1`, child of `A`. -/
def nodeB1 : CBlockIndex := .link ⟨2, 101, 60, false, true⟩ nodeA

/-- Node `B2`, child of `B1`. -/
def nodeB2 : CBlockIndex := .link ⟨3, 102, 70, false, true⟩ nodeB1

/-- Node `B3`, child of `B2`. -/
def nodeB3 : CBlockIndex := .link ⟨4, 103, 80, false, true⟩ nodeB2

/-- Chain state whose active chain is `[A]` with tip work 50 and nothing
    in flight. -/
def stW : ChainState := ⟨[1], [], 50⟩

/-- An `AcceptBlockHeader` behaviour that accepts every header: commits
    its hash to the (list-modelled) chain index and returns a fresh node
    carrying the header's hash as its work, with the tree-validity flag
    set. -/
def fCommit : List Nat → CBlockHeader → List Nat × AcceptOutcome :=
  fun st h =>
    (st ++ [h.GetHash],
     { ok := true,
       pindexOut := some (CBlockIndex.root ⟨h.GetHash, 0, h.GetHash, false, true⟩),
       invalid := false, nDoS := 0 })

/-- An `AcceptBlockHeader` behaviour that rejects every header with an
    invalid state carrying penalty 50. -/
def fReject50 : List Nat → CBlockHeader → List Nat × AcceptOutcome :=
  fun st _ => (st, { ok := false, pindexOut := none, invalid := true, nDoS := 50 })

/-- An `AcceptBlockHeader` behaviour that rejects every header with an
    invalid state carrying penalty 0. -/
def fRejectBenign : List Nat → CBlockHeader → List Nat × AcceptOutcome :=
  fun st _ => (st, { ok := false, pindexOut := none, invalid := true, nDoS := 0 })

/-- An admission policy that admits every hash. -/
def annAll : Unit → Nat → Bool × Unit := fun a _ => (true, a)

/-- A peer environment: header tree knows hash 1 only, the peer's best
    known header is 7, the node's global best header is 5, counter 0. -/
def envC1 : PeerEnv := ⟨[1], some 7, some 5, 0⟩

/-- A header with unknown previous hash 100 and own hash 9. -/
def hdrC1 : CBlockHeader := ⟨100, 9⟩

/-- A header with previous hash 1 and own hash 10. -/
def hdrH1 : CBlockHeader := ⟨1, 10⟩

/-- A header with previous hash 999 (not hash 10) and own hash 11. -/
def hdrH2 : CBlockHeader := ⟨999, 11⟩

/-- A header with previous hash 1 and own hash 60 (its accepted node under
    `fCommit` has work 60 ≥ tip work 50). -/
def hdrG : CBlockHeader := ⟨1, 60⟩

/-- The node `fCommit` commits for `hdrH1`. -/
def nodeH1 : CBlockIndex := .root ⟨10, 0, 10, false, true⟩

/-- The node `fCommit` commits for `hdrG`. -/
def nodeG : CBlockIndex := .root ⟨60, 0, 60, false, true⟩

/-! ## Sliding-window helpers

The deque discipline of `findMissingBlocks` (`push_back`, then `pop_front`
when over the cap) keeps the last `cap` pushed elements, in push order. -/

theorem lastWindow_eq_reverse_take {γ : Type} (cap : Nat) (l : List γ) :
    lastWindow cap l = (l.reverse.take cap).reverse := by
  rw [lastWindow, List.take_reverse, List.reverse_reverse]

theorem lastWindow_length_le {γ : Type} (cap : Nat) (l : List γ) :
    (lastWindow cap l).length ≤ cap := by
  rw [lastWindow, List.length_drop]
  omega

theorem lastWindow_of_length_le {γ : Type} (cap : Nat) (l : List γ)
    (h : l.length ≤ cap) : lastWindow cap l = l := by
  rw [lastWindow, Nat.sub_eq_zero_of_le h, List.drop_zero]

theorem lastWindow_append {γ : Type} (cap : Nat) (l rest : List γ) :
    lastWindow cap (lastWindow cap l ++ rest) = lastWindow cap (l ++ rest) := by
  rw [lastWindow_eq_reverse_take cap (lastWindow cap l ++ rest),
    lastWindow_eq_reverse_take cap (l ++ rest),
    lastWindow_eq_reverse_take cap l]
  rw [List.reverse_append, List.reverse_reverse, List.reverse_append]
  rw [List.take_append_eq_append_take, List.take_append_eq_append_take,
    List.take_take]
  have : (cap - rest.reverse.length) ⊓ cap = cap - rest.reverse.length := by
    omega
  rw [this]

/-- One deque step of `findMissingBlocks`: `push_back` then conditional
    `pop_front` computes the last-`cap` window. -/
theorem slide_step_eq {γ : Type} (cap : Nat) (acc : List γ) (x : γ)
    (hacc : acc.length ≤ cap) :
    (if (acc ++ [x]).length > cap then (acc ++ [x]).tail else acc ++ [x])
      = lastWindow cap (acc ++ [x]) := by
  by_cases h : (acc ++ [x]).length > cap
  · rw [if_pos h, lastWindow]
    have hlen : (acc ++ [x]).length = acc.length + 1 := by
      simp [List.length_append]
    have : (acc ++ [x]).length - cap = 1 := by omega
    rw [this, List.drop_one]
  · rw [if_neg h, lastWindow_of_length_le]
    omega

/-! ## Characterisation of the missing-ancestor walk -/

/-- Loop invariant of `findMissingBlocks`: when the walk meets the active
    chain within the depth limit, the deque computes the last-`cap` window
    of the carried buffer extended by the gap's missing nodes. -/
theorem findMissingGo_spec (st : ChainState) (cap : Nat) (walk : CBlockIndex) :
    ∀ (walked : Nat) (acc : List CBlockIndex),
    acc.length ≤ cap →
    reachesActive st walk →
    walked + (gapWalk st walk).length + 1 ≤ WALK_LIMIT →
    findMissingGo st cap walk walked acc
      = lastWindow cap (acc ++ missingGap st walk) := by
  induction walk with
  | root d =>
    intro walked acc hacc hreach hlim
    rw [findMissingGo]
    rw [if_neg (by omega)]
    by_cases hc : st.activeContains (CBlockIndex.root d).GetBlockHash
    · rw [if_pos hc]
      have hgap : gapWalk st (CBlockIndex.root d) = [] := by
        simp [gapWalk, CBlockIndex.chainList, List.takeWhile_cons, hc]
      rw [missingGap, hgap, List.filter_nil, List.append_nil,
        lastWindow_of_length_le cap acc hacc]
    · exfalso
      have := hreach
      simp [reachesActive, CBlockIndex.chainList, hc] at this
  | link d p ih =>
    intro walked acc hacc hreach hlim
    rw [findMissingGo]
    rw [if_neg (by omega)]
    by_cases hc : st.activeContains (CBlockIndex.link d p).GetBlockHash
    · rw [if_pos hc]
      have hgap : gapWalk st (CBlockIndex.link d p) = [] := by
        simp [gapWalk, CBlockIndex.chainList, List.takeWhile_cons, hc]
      rw [missingGap, hgap, List.filter_nil, List.append_nil,
        lastWindow_of_length_le cap acc hacc]
    · rw [if_neg hc]
      have hgap : gapWalk st (CBlockIndex.link d p)
          = CBlockIndex.link d p :: gapWalk st p := by
        simp [gapWalk, CBlockIndex.chainList, List.takeWhile_cons, hc]
      have hreach' : reachesActive st p := by
        have := hreach
        simp [reachesActive, CBlockIndex.chainList, hc] at this
        simpa [reachesActive] using this
      have hlim' : walked + 1 + (gapWalk st p).length + 1 ≤ WALK_LIMIT := by
        rw [hgap] at hlim
        simp only [List.length_cons] at hlim
        omega
      by_cases hd : (CBlockIndex.link d p).hasData
      · simp only [hd, if_true]
        rw [ih (walked + 1) acc hacc hreach' hlim']
        have hmiss : missingGap st (CBlockIndex.link d p) = missingGap st p := by
          rw [missingGap, hgap, List.filter_cons, if_neg (by simp [hd]), missingGap]
        rw [hmiss]
      · by_cases hf : st.isInFlight (CBlockIndex.link d p).GetBlockHash
        · simp only [hd, if_false, hf, if_true, Bool.false_eq_true]
          rw [ih (walked + 1) acc hacc hreach' hlim']
          have hmiss : missingGap st (CBlockIndex.link d p) = missingGap st p := by
            rw [missingGap, hgap, List.filter_cons, if_neg (by simp [hd, hf]),
              missingGap]
          rw [hmiss]
        · simp only [hd, hf, if_false, Bool.false_eq_true]
          rw [slide_step_eq cap acc (CBlockIndex.link d p) hacc]
          rw [ih (walked + 1) _ (lastWindow_length_le cap _) hreach' hlim']
          rw [lastWindow_append]
          have hmiss : missingGap st (CBlockIndex.link d p)
              = CBlockIndex.link d p :: missingGap st p := by
            rw [missingGap, hgap, List.filter_cons, if_pos (by simp [hd, hf]),
              missingGap]
          rw [hmiss, List.append_assoc, List.singleton_append]

/-- `findMissingBlocks` computes the last-`cap` window (in tip-first walk
    order) of the gap's missing nodes, whenever the walk meets the active
    chain within the depth limit. -/
theorem findMissingBlocks_spec (st : ChainState) (cap : Nat) (last : CBlockIndex)
    (hreach : reachesActive st last)
    (hlim : (gapWalk st last).length + 1 ≤ WALK_LIMIT) :
    findMissingBlocks st cap last = lastWindow cap (missingGap st last) := by
  rw [findMissingBlocks, findMissingGo_spec st cap last 0 [] (by simp) hreach
    (by omega)]
  rfl

/-- Whatever the state, the walk's result is a sublist of the carried
    buffer followed by the pointer chain. -/
theorem findMissingGo_sublist (st : ChainState) (cap : Nat) (walk : CBlockIndex) :
    ∀ (walked : Nat) (acc : List CBlockIndex),
    List.Sublist (findMissingGo st cap walk walked acc) (acc ++ walk.chainList) := by
  induction walk with
  | root d =>
    intro walked acc
    rw [findMissingGo]
    by_cases hl : walked + 1 > WALK_LIMIT
    · rw [if_pos hl]
      exact List.nil_sublist _
    · rw [if_neg hl]
      by_cases hc : st.activeContains (CBlockIndex.root d).GetBlockHash
      · rw [if_pos hc]
        exact List.sublist_append_left acc _
      · rw [if_neg hc]
        by_cases hd : (CBlockIndex.root d).hasData
        · simp only [hd, if_true]
          exact List.sublist_append_left acc _
        · by_cases hf : st.isInFlight (CBlockIndex.root d).GetBlockHash
          · simp only [hd, hf, if_true, Bool.false_eq_true, if_false]
            exact List.sublist_append_left acc _
          · simp only [hd, hf, Bool.false_eq_true, if_false]
            by_cases hlen : (acc ++ [CBlockIndex.root d]).length > cap
            · rw [if_pos hlen]
              refine List.Sublist.trans (List.tail_sublist _) ?_
              rw [CBlockIndex.chainList]
            · rw [if_neg hlen]
              rw [CBlockIndex.chainList]
  | link d p ih =>
    intro walked acc
    rw [findMissingGo]
    by_cases hl : walked + 1 > WALK_LIMIT
    · rw [if_pos hl]
      exact List.nil_sublist _
    · rw [if_neg hl]
      by_cases hc : st.activeContains (CBlockIndex.link d p).GetBlockHash
      · rw [if_pos hc]
        exact List.sublist_append_left acc _
      · rw [if_neg hc]
        have hchain : (CBlockIndex.link d p).chainList
            = CBlockIndex.link d p :: p.chainList := rfl
        by_cases hd : (CBlockIndex.link d p).hasData
        · simp only [hd, if_true]
          refine List.Sublist.trans (ih (walked + 1) acc) ?_
          rw [hchain]
          exact List.Sublist.append_left (List.sublist_cons_self _ _) acc
        · by_cases hf : st.isInFlight (CBlockIndex.link d p).GetBlockHash
          · simp only [hd, hf, if_true, Bool.false_eq_true, if_false]
            refine List.Sublist.trans (ih (walked + 1) acc) ?_
            rw [hchain]
            exact List.Sublist.append_left (List.sublist_cons_self _ _) acc
          · simp only [hd, hf, Bool.false_eq_true, if_false]
            refine List.Sublist.trans (ih (walked + 1) _) ?_
            have hsub : List.Sublist
                (if (acc ++ [CBlockIndex.link d p]).length > cap
                  then (acc ++ [CBlockIndex.link d p]).tail
                  else acc ++ [CBlockIndex.link d p])
                (acc ++ [CBlockIndex.link d p]) := by
              by_cases hlen : (acc ++ [CBlockIndex.link d p]).length > cap
              · rw [if_pos hlen]
                exact List.tail_sublist _
              · rw [if_neg hlen]
            refine List.Sublist.trans (List.Sublist.append_right hsub _) ?_
            rw [hchain, List.append_assoc, List.singleton_append]

/-- Any pairwise relation holding along the pointer chain holds of
    `findMissingBlocks`' result. -/
theorem findMissingBlocks_pairwise (st : ChainState) (cap : Nat)
    (last : CBlockIndex) (R : CBlockIndex → CBlockIndex → Prop)
    (h : last.chainList.Pairwise R) :
    (findMissingBlocks st cap last).Pairwise R := by
  refine List.Pairwise.sublist ?_ h
  have := findMissingGo_sublist st cap last 0 []
  simpa [findMissingBlocks] using this

/-! ## Claim C2: window trimming direction -/

/-- C2: for every tip whose backward walk reaches the active chain after
    passing `K` missing, not-in-flight ancestors with `K` strictly greater
    than the transit cap `cap`, `findMissingBlocks` returns a window of
    exactly `cap` entries, and those entries are the `cap` ancestors
    nearest the already-known chain: the window is the final segment of
    the (tip-first) gap, i.e. the `cap` oldest entries of the gap, not the
    `cap` nearest the tip. -/
theorem claim_C2_thm (st : ChainState) (cap : Nat) (tip : CBlockIndex)
    (hreach : reachesActive st tip)
    (hlim : (gapWalk st tip).length + 1 ≤ WALK_LIMIT)
    (hK : (missingGap st tip).length > cap) :
    (findMissingBlocks st cap tip).length = cap ∧
    ∃ pre : List CBlockIndex,
      missingGap st tip = pre ++ findMissingBlocks st cap tip ∧
      pre.length = (missingGap st tip).length - cap := by
  rw [findMissingBlocks_spec st cap tip hreach hlim]
  refine ⟨?_, (missingGap st tip).take ((missingGap st tip).length - cap), ?_, ?_⟩
  · rw [lastWindow, List.length_drop]
    omega
  · rw [lastWindow, List.take_append_drop]
  · rw [List.length_take]
    omega

/-- Witness for C2 on the concrete tree: gap `B3, B2, B1` (K = 3) with
    cap 2 yields exactly the two entries nearest the chain. -/
theorem claim_C2_witness :
    (findMissingBlocks stW 2 nodeB3).length = 2 ∧
    ∃ pre : List CBlockIndex,
      missingGap stW nodeB3 = pre ++ findMissingBlocks stW 2 nodeB3 ∧
      pre.length = (missingGap stW nodeB3).length - 2 :=
  claim_C2_thm stW 2 nodeB3 (by decide) (by decide) (by decide)

/-! ## Claim C3: order of the returned window -/

/-- C3 as stated is false: `findMissingBlocks` returns the window ordered
    from the ancestor nearest the walked tip (newest) first to the
    ancestor nearest the active chain (oldest) last, not the other way
    around.  On the concrete tree the result is `[B3, B2, B1]` with
    heights `[103, 102, 101]`, which is not even weakly ascending. -/
theorem claim_C3_counterexample :
    (findMissingBlocks stW 16 nodeB3).map CBlockIndex.nHeight = [103, 102, 101] ∧
    ¬ (findMissingBlocks stW 16 nodeB3).Pairwise
        (fun a b => a.nHeight ≤ b.nHeight) := by
  constructor
  · decide
  · decide

/-- C3 amended: for every tip whose pointer chain has strictly decreasing
    heights, the sequence `findMissingBlocks` returns is ordered from the
    ancestor nearest the walked tip (newest, greatest height) first to the
    ancestor nearest the active chain (oldest) last; `suggestDownload`
    compensates by iterating the window in reverse. -/
theorem claim_C3_thm (st : ChainState) (cap : Nat) (tip : CBlockIndex)
    (hwf : tip.chainList.Pairwise (fun a b => b.nHeight < a.nHeight)) :
    (findMissingBlocks st cap tip).Pairwise
      (fun a b => b.nHeight < a.nHeight) :=
  findMissingBlocks_pairwise st cap tip _ hwf

/-- Witness for the amended C3 on the concrete tree. -/
theorem claim_C3_witness :
    (findMissingBlocks stW 16 nodeB3).Pairwise
      (fun a b => b.nHeight < a.nHeight) :=
  claim_C3_thm stW 16 nodeB3 (by decide)

/-! ## Claim C4: broken continuity, partial commit -/

/-- C4: for every batch whose first header is valid and connects (the
    chain index accepts it, returning its node) and whose second header's
    previous-hash differs from the first header's hash, `acceptHeaders`
    raises the non-continuous-sequence error, emits exactly one
    misbehavior report of 20 points, and the chain-index state afterward
    is exactly the state in which the first header was committed (no
    rollback). -/
theorem claim_C4_thm {σ : Type} (f : σ → CBlockHeader → σ × AcceptOutcome)
    (peer : Nat) (st st1 : σ) (out1 : AcceptOutcome) (n1 : CBlockIndex)
    (h1 h2 : CBlockHeader) (rest : List CBlockHeader)
    (hf : f st h1 = (st1, out1)) (hok : out1.ok = true)
    (hout : out1.pindexOut = some n1) (hhash : n1.GetBlockHash = h1.GetHash)
    (hne : h2.hashPrevBlock ≠ h1.GetHash) :
    acceptHeaders f peer st (h1 :: h2 :: rest)
      = (st1, [⟨peer, 20, "non-continuous header sequence"⟩], some n1,
         some HeaderError.nonContinuous) := by
  unfold acceptHeaders
  simp only [acceptHeadersGo, Option.any_none, Bool.false_eq_true, if_false,
    hf, hok, hout, if_true, Option.any_some, hhash, bne_iff_ne, ne_eq, hne,
    not_false_eq_true, List.nil_append]

/-- Witness for C4: under `fCommit`, the batch `[hdrH1, hdrH2]` (with
    `hdrH2.hashPrevBlock = 999 ≠ 10 = hdrH1.GetHash`) commits `hdrH1`,
    reports 20 points once, and aborts. -/
theorem claim_C4_witness :
    acceptHeaders fCommit 7 ([] : List Nat) [hdrH1, hdrH2]
      = ([10], [⟨7, 20, "non-continuous header sequence"⟩], some nodeH1,
         some HeaderError.nonContinuous) :=
  claim_C4_thm fCommit 7 [] [10]
    ⟨true, some nodeH1, false, 0⟩ nodeH1 hdrH1 hdrH2 []
    rfl rfl rfl rfl (by decide)

/-! ## Claim C5: invalid header with positive penalty -/

/-- C5 as stated is false: the misbehavior report carries the penalty
    amount `nDoS` reported by the chain index, not always 20 points.
    Under `fReject50` (rejection with penalty 50), a single header
    produces a 50-point "invalid header" report and no 20-point report,
    while the batch still aborts with the invalid-header error. -/
theorem claim_C5_counterexample :
    (acceptHeaders fReject50 7 ([] : List Nat) [hdrH1]).2.1
        = [⟨7, 50, "invalid header"⟩] ∧
    (∀ m ∈ (acceptHeaders fReject50 7 ([] : List Nat) [hdrH1]).2.1,
        m.points ≠ 20) ∧
    (acceptHeaders fReject50 7 ([] : List Nat) [hdrH1]).2.2.2
        = some HeaderError.invalidHeader := by
  refine ⟨by decide, by decide, by decide⟩

/-- C5 amended: for every header that the chain index rejects with an
    invalid state carrying a positive penalty `nDoS`, `acceptHeaders`
    emits one misbehavior report of exactly `nDoS` points with reason
    "invalid header" and aborts the batch with the invalid-header error;
    the chain-index state is the one produced by that rejecting call (the
    already-accepted prefix stays committed). -/
theorem claim_C5_thm {σ : Type} (f : σ → CBlockHeader → σ × AcceptOutcome)
    (peer : Nat) (st st' : σ) (out : AcceptOutcome)
    (reports : List Misbehavior) (pindexLast : Option CBlockIndex)
    (h : CBlockHeader) (rest : List CBlockHeader)
    (hcont : (pindexLast.any fun l => h.hashPrevBlock != l.GetBlockHash) = false)
    (hf : f st h = (st', out))
    (hok : out.ok = false) (hinv : out.invalid = true) (hdos : out.nDoS > 0) :
    acceptHeadersGo f peer st reports pindexLast (h :: rest)
      = (st', reports ++ [⟨peer, out.nDoS, "invalid header"⟩],
         (match out.pindexOut with | some p => some p | none => pindexLast),
         some HeaderError.invalidHeader) := by
  simp only [acceptHeadersGo, hcont, Bool.false_eq_true, if_false, hf, hok,
    hinv, if_true, hdos]

/-- Witness for the amended C5: `fReject50` yields a 50-point report and
    the invalid-header abort. -/
theorem claim_C5_witness :
    acceptHeadersGo fReject50 7 ([] : List Nat) [] none [hdrH1]
      = ([], [⟨7, 50, "invalid header"⟩], none, some HeaderError.invalidHeader) :=
  claim_C5_thm fReject50 7 [] [] ⟨false, none, true, 50⟩ [] none hdrH1 []
    rfl rfl rfl rfl (by decide)

/-! ## Claim C10: invalid header with non-positive penalty -/

/-- C10: for every header that the chain index rejects with an invalid
    state carrying a non-positive penalty, `acceptHeaders` aborts the
    batch with the invalid-header error without emitting any misbehavior
    report; the chain-index state is the one produced by that rejecting
    call (earlier commits in the same call stay). -/
theorem claim_C10_thm {σ : Type} (f : σ → CBlockHeader → σ × AcceptOutcome)
    (peer : Nat) (st st' : σ) (out : AcceptOutcome)
    (reports : List Misbehavior) (pindexLast : Option CBlockIndex)
    (h : CBlockHeader) (rest : List CBlockHeader)
    (hcont : (pindexLast.any fun l => h.hashPrevBlock != l.GetBlockHash) = false)
    (hf : f st h = (st', out))
    (hok : out.ok = false) (hinv : out.invalid = true) (hdos : out.nDoS ≤ 0) :
    acceptHeadersGo f peer st reports pindexLast (h :: rest)
      = (st', reports,
         (match out.pindexOut with | some p => some p | none => pindexLast),
         some HeaderError.invalidHeader) := by
  simp only [acceptHeadersGo, hcont, Bool.false_eq_true, if_false, hf, hok,
    hinv, if_true]
  rw [if_neg (by omega)]

/-- Witness for C10: `fRejectBenign` (penalty 0) aborts with no report. -/
theorem claim_C10_witness :
    acceptHeadersGo fRejectBenign 7 ([] : List Nat) [] none [hdrH1]
      = ([], [], none, some HeaderError.invalidHeader) :=
  claim_C10_thm fRejectBenign 7 [] [] ⟨false, none, true, 0⟩ [] none hdrH1 []
    rfl rfl rfl rfl (by decide)

/-! ## Claim C7: admission prefix property -/

/-- The suggestion loop requests a `take`-prefix of the iterated hashes,
    marks exactly those in flight, and calls the admission policy once
    per admitted hash plus once for the declining hash (if any). -/
theorem suggestDownloadGo_spec {α : Type} (ann : α → Nat → Bool × α) :
    ∀ (l : List CBlockIndex) (a : α) (toGet marked : List Nat) (evals : Nat),
    ∃ k,
      (suggestDownloadGo ann l a toGet marked evals).1
          = toGet ++ (l.map CBlockIndex.GetBlockHash).take k ∧
      (suggestDownloadGo ann l a toGet marked evals).2.1
          = marked ++ (l.map CBlockIndex.GetBlockHash).take k ∧
      ((k = l.length ∧
          (suggestDownloadGo ann l a toGet marked evals).2.2.1 = evals + k)
        ∨ (k < l.length ∧
          (suggestDownloadGo ann l a toGet marked evals).2.2.1 = evals + k + 1)) := by
  intro l
  induction l with
  | nil =>
    intro a toGet marked evals
    exact ⟨0, by simp [suggestDownloadGo], by simp [suggestDownloadGo],
      Or.inl ⟨rfl, by simp [suggestDownloadGo]⟩⟩
  | cons b rest ih =>
    intro a toGet marked evals
    by_cases hb : (ann a b.GetBlockHash).1
    · obtain ⟨k', h1, h2, h3⟩ := ih (ann a b.GetBlockHash).2
        (toGet ++ [b.GetBlockHash]) (marked ++ [b.GetBlockHash]) (evals + 1)
      refine ⟨k' + 1, ?_, ?_, ?_⟩
      · simp only [suggestDownloadGo, hb, if_true, h1, List.map_cons,
          List.take_succ_cons, List.append_assoc, List.singleton_append]
      · simp only [suggestDownloadGo, hb, if_true, h2, List.map_cons,
          List.take_succ_cons, List.append_assoc, List.singleton_append]
      · rcases h3 with ⟨hk, he⟩ | ⟨hk, he⟩
        · refine Or.inl ⟨by simp [hk], ?_⟩
          simp only [suggestDownloadGo, hb, if_true, he]
          omega
        · refine Or.inr ⟨by simp; omega, ?_⟩
          simp only [suggestDownloadGo, hb, if_true, he]
          omega
    · refine ⟨0, ?_, ?_, Or.inr ⟨by simp, ?_⟩⟩
      · simp [suggestDownloadGo, hb]
      · simp [suggestDownloadGo, hb]
      · simp [suggestDownloadGo, hb]

/-- C7: for every window and every admission policy, the set of hashes
    `suggestDownload` actually requests (and marks in-flight) is a
    contiguous prefix of the window in nearest-known-chain-first order
    (the reverse of the tip-first window, which is the order the loop
    iterates): the requested hashes are `take k` of that order, the
    marked hashes coincide with the requested ones, and the admission
    policy is evaluated only `k` times when everything is admitted, or
    `k + 1` times otherwise — hashes after the first declined one are
    never evaluated. -/
theorem claim_C7_thm {α : Type} (ann : α → Nat → Bool × α) (a : α)
    (toFetch : List CBlockIndex) :
    ∃ k,
      (suggestDownload ann a toFetch).1
          = (toFetch.reverse.map CBlockIndex.GetBlockHash).take k ∧
      (suggestDownload ann a toFetch).2.1 = (suggestDownload ann a toFetch).1 ∧
      ((k = toFetch.length ∧ (suggestDownload ann a toFetch).2.2.1 = k)
        ∨ (k < toFetch.length ∧ (suggestDownload ann a toFetch).2.2.1 = k + 1)) := by
  obtain ⟨k, h1, h2, h3⟩ := suggestDownloadGo_spec ann toFetch.reverse a [] [] 0
  refine ⟨k, ?_, ?_, ?_⟩
  · simp only [suggestDownload]
    rw [h1, List.nil_append]
  · simp only [suggestDownload]
    rw [h1, h2]
  · rcases h3 with ⟨hk, he⟩ | ⟨hk, he⟩
    · refine Or.inl ⟨by simpa using hk, ?_⟩
      simp only [suggestDownload]
      rw [he, Nat.zero_add]
    · refine Or.inr ⟨by simpa using hk, ?_⟩
      simp only [suggestDownload]
      rw [he, Nat.zero_add]

/-! ## Claim C6: invariant checker at the end of processing -/

/-- C6 as stated is false: an invocation that aborts with a batch-fatal
    error propagates the exception before reaching `checkBlockIndex()`,
    so the external block-tree invariant checker is not invoked.  Concrete
    aborting invocation: `[hdrH1, hdrH2]` breaks continuity. -/
theorem claim_C6_counterexample :
    (processHeaders fCommit annAll 7 stW 16 ([] : List Nat) () [hdrH1, hdrH2]
        true true).error = some HeaderError.nonContinuous ∧
    (processHeaders fCommit annAll 7 stW 16 ([] : List Nat) () [hdrH1, hdrH2]
        true true).checkedBlockIndex = false :=
  ⟨rfl, rfl⟩

/-- C6 amended: the external block-tree invariant checker is invoked at
    the end of an invocation of the header processor entry point exactly
    when that invocation completes without a batch-fatal error; aborting
    invocations skip it. -/
theorem claim_C6_thm {σ α : Type} (f : σ → CBlockHeader → σ × AcceptOutcome)
    (ann : α → Nat → Bool × α) (peer : Nat) (g : ChainState) (cap : Nat)
    (st : σ) (a : α) (headers : List CBlockHeader) (psm mba : Bool) :
    (processHeaders f ann peer g cap st a headers psm mba).checkedBlockIndex = true
      ↔ (processHeaders f ann peer g cap st a headers psm mba).error = none := by
  rcases hacc : acceptHeaders f peer st headers with ⟨s1, reps, pl, err⟩
  simp only [processHeaders, hacc]
  cases err with
  | some e => simp
  | none =>
    cases pl with
    | none => simp
    | some l =>
      by_cases hg : (mba && hasEqualOrMoreWork g l) = true
      · simp [hg]
      · simp [hg]

/-! ## Claim C8: work gate for the speculative fetch -/

/-- C8: when the entry point is invoked with `maybeAnnouncement = true`
    and returns a non-none last accepted node, the missing-ancestor walk
    and the download suggestion are performed if and only if the node's
    header-tree validity flag is set and its cumulative work is at least
    the active chain tip's work (the `hasEqualOrMoreWork` gate); with
    strictly less work they are never invoked. -/
theorem claim_C8_thm {σ α : Type} (f : σ → CBlockHeader → σ × AcceptOutcome)
    (ann : α → Nat → Bool × α) (peer : Nat) (g : ChainState) (cap : Nat)
    (st : σ) (a : α) (headers : List CBlockHeader) (psm : Bool)
    (last : CBlockIndex)
    (hret : (processHeaders f ann peer g cap st a headers psm true).ret
        = some last) :
    ((processHeaders f ann peer g cap st a headers psm true).ranFindMissing
        = hasEqualOrMoreWork g last) ∧
    ((processHeaders f ann peer g cap st a headers psm true).ranSuggest
        = hasEqualOrMoreWork g last) ∧
    hasEqualOrMoreWork g last
        = (last.validTree && decide (g.tipWork ≤ last.nChainWork)) := by
  have h3 : hasEqualOrMoreWork g last
      = (last.validTree && decide (g.tipWork ≤ last.nChainWork)) := rfl
  rcases hacc : acceptHeaders f peer st headers with ⟨s1, reps, pl, err⟩
  simp only [processHeaders, hacc] at hret ⊢
  cases err with
  | some e => simp at hret
  | none =>
    cases pl with
    | none => simp at hret
    | some l =>
      by_cases hg : hasEqualOrMoreWork g l = true
      · have hll : l = last := by simpa [hg] using hret
        subst hll
        exact ⟨by simp [hg], by simp [hg], h3⟩
      · rw [Bool.not_eq_true] at hg
        have hll : l = last := by simpa [hg] using hret
        subst hll
        exact ⟨by simp [hg], by simp [hg], h3⟩

/-- Witness for C8: a single connecting announcement header whose node
    (work 60, valid tree) beats the active tip work 50; the gate is true
    and the walk and suggestion run. -/
theorem claim_C8_witness :
    ((processHeaders fCommit annAll 7 stW 16 ([] : List Nat) () [hdrG]
        false true).ranFindMissing = hasEqualOrMoreWork stW nodeG) ∧
    ((processHeaders fCommit annAll 7 stW 16 ([] : List Nat) () [hdrG]
        false true).ranSuggest = hasEqualOrMoreWork stW nodeG) ∧
    hasEqualOrMoreWork stW nodeG
        = (nodeG.validTree && decide (stW.tipWork ≤ nodeG.nChainWork)) :=
  claim_C8_thm fCommit annAll 7 stW 16 [] () [hdrG] false nodeG rfl

/-! ## Claim C1: continuation request for unconnecting headers -/

/-- C1 as stated is false: the getheaders continuation request's locator
    is built from the node's global best header (`pindexBestHeader`, hash
    5 here), not from the peer's best-known-header pointer — which is 7
    before the call and 9 (the unconnected header's hash) after it. -/
theorem claim_C1_counterexample :
    headerConnects envC1 hdrC1 = false ∧
    (requestConnectHeaders 7 envC1 hdrC1 true).2.2.1
        = [Msg.getheaders (some 5) 0] ∧
    envC1.bestKnownHeader = some 7 ∧
    (requestConnectHeaders 7 envC1 hdrC1 true).1.bestKnownHeader = some 9 ∧
    ((some 5 : Option Nat) ≠ some 7 ∧ (some 5 : Option Nat) ≠ some 9) ∧
    (requestConnectHeaders 7 envC1 hdrC1 true).2.2.2 = true := by
  decide

/-- C1 amended: for every header whose previous-hash is not known to the
    chain index, `requestConnectHeaders` updates the peer's best-known
    pointer to the header's hash, sends a getheaders continuation request
    whose chain locator is built from the node's global best header
    (`pindexBestHeader`), and returns true. -/
theorem claim_C1_thm (peer : Nat) (env : PeerEnv) (h : CBlockHeader)
    (bump : Bool) (hnc : headerConnects env h = false) :
    (requestConnectHeaders peer env h bump).2.2.1
        = [Msg.getheaders env.pindexBestHeader 0] ∧
    (requestConnectHeaders peer env h bump).2.2.2 = true ∧
    (requestConnectHeaders peer env h bump).1.bestKnownHeader
        = some h.GetHash := by
  unfold requestConnectHeaders
  simp only [hnc, Bool.false_eq_true, if_false]
  cases bump with
  | false => simp [updateBlockAvailability]
  | true =>
    by_cases hm : (env.unconnectingHeaders + 1) % MAX_UNCONNECTING_HEADERS = 0
    · simp [updateBlockAvailability, hm]
    · simp [updateBlockAvailability, hm]

/-- Witness for the amended C1 on the concrete environment. -/
theorem claim_C1_witness :
    (requestConnectHeaders 7 envC1 hdrC1 true).2.2.1
        = [Msg.getheaders envC1.pindexBestHeader 0] ∧
    (requestConnectHeaders 7 envC1 hdrC1 true).2.2.2 = true ∧
    (requestConnectHeaders 7 envC1 hdrC1 true).1.bestKnownHeader
        = some hdrC1.GetHash :=
  claim_C1_thm 7 envC1 hdrC1 true (by decide)

/-! ## Claim C9: unconnecting-header counter and DoS reports -/

/-- A single counted unconnecting call: the counter is incremented by
    exactly one, the header-tree key set is untouched, and a 20-point
    report is emitted exactly when the resulting counter is a multiple of
    `MAX_UNCONNECTING_HEADERS`. -/
theorem requestConnectHeaders_bump (peer : Nat) (env : PeerEnv)
    (h : CBlockHeader) (hnc : headerConnects env h = false) :
    (requestConnectHeaders peer env h true).1.unconnectingHeaders
        = env.unconnectingHeaders + 1 ∧
    (requestConnectHeaders peer env h true).1.mapBlockIndex
        = env.mapBlockIndex ∧
    (requestConnectHeaders peer env h true).2.1
        = (if (env.unconnectingHeaders + 1) % MAX_UNCONNECTING_HEADERS = 0
           then [⟨peer, 20, "unconnecting-headers"⟩] else []) := by
  unfold requestConnectHeaders updateBlockAvailability
  simp only [hnc, Bool.false_eq_true, if_false, Bool.not_true]
  by_cases hm : (env.unconnectingHeaders + 1) % MAX_UNCONNECTING_HEADERS = 0
  · simp [hm]
  · simp [hm]

/-- Iterated counted unconnecting calls, as long as the counter stays
    within the threshold: the counter advances by the number of calls and
    exactly one report is emitted exactly when the threshold is reached. -/
theorem requestConnectHeadersRun_spec (peer : Nat) :
    ∀ (hs : List CBlockHeader) (env : PeerEnv),
    (∀ x ∈ hs, headerConnects env x = false) →
    env.unconnectingHeaders + hs.length ≤ MAX_UNCONNECTING_HEADERS →
    (requestConnectHeadersRun peer env hs).1.unconnectingHeaders
        = env.unconnectingHeaders + hs.length ∧
    (requestConnectHeadersRun peer env hs).1.mapBlockIndex
        = env.mapBlockIndex ∧
    (requestConnectHeadersRun peer env hs).2
        = (if env.unconnectingHeaders + hs.length = MAX_UNCONNECTING_HEADERS
              ∧ 0 < hs.length
           then [⟨peer, 20, "unconnecting-headers"⟩] else []) := by
  intro hs
  induction hs with
  | nil =>
    intro env hall hbound
    refine ⟨by simp [requestConnectHeadersRun], by simp [requestConnectHeadersRun], ?_⟩
    simp only [requestConnectHeadersRun, List.length_nil]
    rw [if_neg (by omega)]
  | cons x rest ih =>
    intro env hall hbound
    have hx : headerConnects env x = false := hall x (by simp)
    obtain ⟨e1, e2, e3⟩ := requestConnectHeaders_bump peer env x hx
    simp only [List.length_cons, MAX_UNCONNECTING_HEADERS] at hbound
    have hall' : ∀ y ∈ rest,
        headerConnects (requestConnectHeaders peer env x true).1 y = false := by
      intro y hy
      have hy' := hall y (by simp [hy])
      unfold headerConnects at hy' ⊢
      rw [e2]
      exact hy'
    have hbound' : (requestConnectHeaders peer env x true).1.unconnectingHeaders
        + rest.length ≤ MAX_UNCONNECTING_HEADERS := by
      rw [e1]
      unfold MAX_UNCONNECTING_HEADERS
      omega
    obtain ⟨r1, r2, r3⟩ := ih (requestConnectHeaders peer env x true).1 hall' hbound'
    refine ⟨?_, ?_, ?_⟩
    · simp only [requestConnectHeadersRun, r1, e1, List.length_cons]
      omega
    · simp only [requestConnectHeadersRun, r2, e2]
    · simp only [requestConnectHeadersRun, r3, e3, e1, List.length_cons,
        MAX_UNCONNECTING_HEADERS]
      split_ifs with h1 h2 h3 <;> first | (exfalso; omega) | simp

/-- C9: each call of the unconnecting-header handler with
    `bumpUnconnecting = true` for a non-connecting header increments the
    peer's unconnecting counter by exactly 1 and emits a 20-point report
    exactly when the resulting counter is a multiple of 10; consequently,
    after exactly 10 such events from a zero counter with no intervening
    reset, exactly one 20-point report has been made. -/
theorem claim_C9_thm (peer : Nat) (env : PeerEnv) (h : CBlockHeader)
    (hs : List CBlockHeader)
    (hnc : headerConnects env h = false)
    (hall : ∀ x ∈ hs, headerConnects env x = false)
    (hcnt : env.unconnectingHeaders = 0)
    (hlen : hs.length = MAX_UNCONNECTING_HEADERS) :
    ((requestConnectHeaders peer env h true).1.unconnectingHeaders
        = env.unconnectingHeaders + 1) ∧
    ((requestConnectHeaders peer env h true).2.1
        = (if (env.unconnectingHeaders + 1) % MAX_UNCONNECTING_HEADERS = 0
           then [⟨peer, 20, "unconnecting-headers"⟩] else [])) ∧
    (requestConnectHeadersRun peer env hs).2
        = [⟨peer, 20, "unconnecting-headers"⟩] := by
  obtain ⟨e1, _, e3⟩ := requestConnectHeaders_bump peer env h hnc
  obtain ⟨_, _, r3⟩ := requestConnectHeadersRun_spec peer hs env hall
    (by rw [hcnt, hlen]; omega)
  refine ⟨e1, e3, ?_⟩
  rw [r3, if_pos]
  constructor
  · rw [hcnt, hlen]
    omega
  · rw [hlen]
    unfold MAX_UNCONNECTING_HEADERS
    omega

/-- Witness for C9: peer environment with counter 0; one call reports
    nothing and sets the counter to 1; ten calls report exactly once. -/
theorem claim_C9_witness :
    ((requestConnectHeaders 7 envC1 hdrC1 true).1.unconnectingHeaders
        = envC1.unconnectingHeaders + 1) ∧
    ((requestConnectHeaders 7 envC1 hdrC1 true).2.1
        = (if (envC1.unconnectingHeaders + 1) % MAX_UNCONNECTING_HEADERS = 0
           then [⟨7, 20, "unconnecting-headers"⟩] else [])) ∧
    (requestConnectHeadersRun 7 envC1
        (List.replicate MAX_UNCONNECTING_HEADERS hdrC1)).2
        = [⟨7, 20, "unconnecting-headers"⟩] :=
  claim_C9_thm 7 envC1 hdrC1 (List.replicate MAX_UNCONNECTING_HEADERS hdrC1)
    (by decide) (by decide) rfl (by decide)

end HeaderProc
